import Mathlib

/-!
Verification development for the environment-utilities module
(`snowflake/ml/_internal/env_utils.py`) of an ML-platform client library.

The module validates pip/conda requirement strings, merges them into
per-channel dependency dictionaries, detects duplicate-package conflicts,
and reconciles version specifiers against an external package catalog.

Modelling choices (shallow embedding):
* `requirements.Requirement` objects from the third-party `packaging`
  library are modelled by the structure `Requirement`: a package name, a
  flag for extras, a flag for a URL, a flag for an environment marker, and
  a version specifier modelled as a decidable predicate on versions.
* Package versions (`packaging.version.Version`) are modelled as `Nat`;
  only their ordering and equality matter to this module.
* The third-party PEP 508 parser is not part of this repository, so it is
  a parameter `parse : String → Option Requirement` (`none` models
  `InvalidRequirement`); name canonicalization (PEP 503) is modelled
  concretely, since the module's duplicate detection depends on it.
* Python exceptions become `Except`/`Option` results.  For the in-place
  mutating functions (`append_requirement_list`, `append_conda_dependency`)
  the result is the final state of the mutated argument paired with the
  raised exception, if any, so that atomicity is expressible.
* The conda-dependency `DefaultDict[str, List[Requirement]]` is an
  association list `List (String × List Requirement)` in insertion order,
  matching Python dict iteration order.
-/

namespace EnvUtils

/-- Model of `packaging.requirements.Requirement`: package name, presence of
extras, presence of a URL, presence of an environment marker, and the
version specifier as a predicate on (modelled) versions. -/
structure Requirement where
  name : String
  extras : Bool
  url : Bool
  marker : Bool
  specifier : Nat → Bool

/-- The exceptions raised by the module: `ValueError`,
`DuplicateDependencyError` and `DuplicateDependencyInMultipleChannelsError`. -/
inductive EnvError where
  | valueError
  | duplicateDependency
  | duplicateDependencyInMultipleChannels
deriving DecidableEq, Repr

/-- Separator characters collapsed by PEP 503 name canonicalization. -/
def isSepChar (c : Char) : Bool :=
  c == '-' || c == '_' || c == '.'

/-- Character-list core of `packaging.utils.canonicalize_name`:
`re.sub(r"[-_.]+", "-", name).lower()`.  The Boolean state records whether
the previous character belonged to a separator run, so each maximal run of
`[-_.]` characters is replaced by a single `'-'`; all other characters are
lowercased. -/
def canonAux : Bool → List Char → List Char
  | _, [] => []
  | inSepRun, c :: rest =>
    if isSepChar c then
      if inSepRun then canonAux true rest
      else '-' :: canonAux true rest
    else c.toLower :: canonAux false rest

/-- Model of `packaging.utils.canonicalize_name`. -/
def canonicalizeName (s : String) : String :=
  String.mk (canonAux false s.data)

/-- Model of `_validate_pip_requirement_string`, parameterized by the
third-party PEP 508 parser.  Parsing failure raises `ValueError`; the parsed
name is canonicalized; a requirement with a marker raises `ValueError`. -/
def validatePipRequirementString (parse : String → Option Requirement)
    (reqStr : String) : Except EnvError Requirement :=
  match parse reqStr with
  | none => .error .valueError
  | some r0 =>
    let r : Requirement := { r0 with name := canonicalizeName r0.name }
    if r.marker then .error .valueError else .ok r

/-- Split a character list around the rightmost occurrence of `"::"`:
`some (pre, post)` with the input equal to `pre ++ "::" ++ post` and no
occurrence of `"::"` inside `post`; `none` when `"::"` does not occur. -/
def rpartAux : List Char → Option (List Char × List Char)
  | [] => none
  | [_] => none
  | c1 :: c2 :: rest =>
    match rpartAux (c2 :: rest) with
    | some (a, b) => some (c1 :: a, b)
    | none => if c1 = ':' ∧ c2 = ':' then some ([], rest) else none

/-- Model of `dep_str.rpartition("::")` restricted to the use in the module:
the pair (part before the last `"::"`, part after it), with the first
component `""` when the separator does not occur (Python then returns
`("", "", dep_str)`). -/
def rpartitionSep (s : String) : String × String :=
  match rpartAux s.data with
  | none => ("", s)
  | some (a, b) => (String.mk a, String.mk b)

/-- Model of `_validate_conda_dependency_string`: split the channel before
the last `"::"` (defaulting to `"defaults"`), validate the requirement part,
and reject extras and URLs unless the channel is `"pip"`. -/
def validateCondaDependencyString (parse : String → Option Requirement)
    (depStr : String) : Except EnvError (String × Requirement) :=
  let channelStr0 := (rpartitionSep depStr).1
  let requirementStr := (rpartitionSep depStr).2
  let channelStr := if channelStr0 = "" then "defaults" else channelStr0
  match validatePipRequirementString parse requirementStr with
  | .error e => .error e
  | .ok r =>
    if channelStr ≠ "pip" then
      if r.extras then .error .valueError
      else if r.url then .error .valueError
      else .ok (channelStr, r)
    else .ok (channelStr, r)

/-- Model of `_check_if_requirement_same`. -/
def checkIfRequirementSame (reqA reqB : Requirement) : Bool :=
  reqA.name == reqB.name

/-- Model of `append_requirement_list`.  The first component is the final
state of the (in Python, in-place mutated) list; the second is the raised
exception, if any. -/
def appendRequirementList (reqList : List Requirement) (pReq : Requirement) :
    List Requirement × Option EnvError :=
  if reqList.any (fun req => checkIfRequirementSame pReq req) then
    (reqList, some .duplicateDependency)
  else
    (reqList ++ [pReq], none)

/-- Lookup in the association-list model of a Python dict. -/
def dictFind? (d : List (String × List Requirement)) (k : String) :
    Option (List Requirement) :=
  (d.find? (fun p => p.1 == k)).map (fun p => p.2)

/-- Model of `defaultdict(list)[k].append(r)`: append to the existing entry,
or create the entry at the end of the dict when the key is absent. -/
def dictAppend (d : List (String × List Requirement)) (k : String)
    (r : Requirement) : List (String × List Requirement) :=
  match d with
  | [] => [(k, [r])]
  | (k0, v0) :: rest =>
    if k0 == k then (k0, v0 ++ [r]) :: rest else (k0, v0) :: dictAppend rest k r

/-- The channel of the first requirement in dict iteration order whose name
matches, mirroring the nested search loops of `append_conda_dependency`. -/
def findDupChannel (d : List (String × List Requirement)) (pReq : Requirement) :
    Option String :=
  match d with
  | [] => none
  | (k0, v0) :: rest =>
    if v0.any (fun req => checkIfRequirementSame pReq req) then some k0
    else findDupChannel rest pReq

/-- Model of `append_conda_dependency`.  The first component is the final
state of the dict; the second is the raised exception, if any. -/
def appendCondaDependency (condaChanDeps : List (String × List Requirement))
    (pChanDep : String × Requirement) :
    List (String × List Requirement) × Option EnvError :=
  match findDupChannel condaChanDeps pChanDep.2 with
  | some chanChannel =>
    if chanChannel ≠ pChanDep.1 then
      (condaChanDeps, some .duplicateDependencyInMultipleChannels)
    else
      (condaChanDeps, some .duplicateDependency)
  | none => (dictAppend condaChanDeps pChanDep.1 pChanDep.2, none)

/-- One iteration of the loop of `validate_pip_requirement_string_list`:
validate the string and append it to the accumulating list, converting a
raised exception into an `Except` error. -/
def pipAppendStep (parse : String → Option Requirement)
    (acc : List Requirement) (reqStr : String) :
    Except EnvError (List Requirement) :=
  match validatePipRequirementString parse reqStr with
  | .error e => .error e
  | .ok r =>
    match appendRequirementList acc r with
    | (acc', none) => .ok acc'
    | (_, some e) => .error e

/-- The loop of `validate_pip_requirement_string_list`, with the list built
so far as accumulator. -/
def pipFold (parse : String → Option Requirement) (acc : List Requirement) :
    List String → Except EnvError (List Requirement)
  | [] => .ok acc
  | s :: ss =>
    match pipAppendStep parse acc s with
    | .error e => .error e
    | .ok acc' => pipFold parse acc' ss

/-- Model of `validate_pip_requirement_string_list`: validate each string and
append it to the accumulating list, propagating the first exception. -/
def validatePipRequirementStringList (parse : String → Option Requirement)
    (reqStrList : List String) : Except EnvError (List Requirement) :=
  pipFold parse [] reqStrList

/-- One iteration of the appending loop of
`validate_conda_dependency_string_list`. -/
def condaAppendStep (d : List (String × List Requirement))
    (pChanDep : String × Requirement) :
    Except EnvError (List (String × List Requirement)) :=
  match appendCondaDependency d pChanDep with
  | (d', none) => .ok d'
  | (_, some e) => .error e

/-- Python's `list(map(_validate_conda_dependency_string, dep_str_list))`:
validate every string, propagating the first `ValueError`. -/
def condaMapValidate (parse : String → Option Requirement) :
    List String → Except EnvError (List (String × Requirement))
  | [] => .ok []
  | s :: ss =>
    match validateCondaDependencyString parse s with
    | .error e => .error e
    | .ok p =>
      match condaMapValidate parse ss with
      | .error e => .error e
      | .ok ps => .ok (p :: ps)

/-- The appending loop of `validate_conda_dependency_string_list`, with the
dict built so far as accumulator. -/
def condaFold (d : List (String × List Requirement)) :
    List (String × Requirement) → Except EnvError (List (String × List Requirement))
  | [] => .ok d
  | p :: ps =>
    match condaAppendStep d p with
    | .error e => .error e
    | .ok d' => condaFold d' ps

/-- Model of `validate_conda_dependency_string_list`: validate every string
first (Python's `list(map(...))`), then append each (channel, requirement)
pair to a fresh defaultdict, propagating the first exception. -/
def validateCondaDependencyStringList (parse : String → Option Requirement)
    (depStrList : List String) :
    Except EnvError (List (String × List Requirement)) :=
  match condaMapValidate parse depStrList with
  | .error e => .error e
  | .ok validated => condaFold [] validated

/-- Python's `sorted` on a list of strings. -/
def sortStrings (l : List String) : List String :=
  l.mergeSort (fun a b => decide (a ≤ b))

/-- Lookup in the association-list model of the module-level cache
`_SNOWFLAKE_CONDA_PACKAGE_CACHE : Dict[str, List[version.Version]]`. -/
def cacheFind? (cache : List (String × List Nat)) (k : String) :
    Option (List Nat) :=
  (cache.find? (fun p => p.1 == k)).map (fun p => p.2)

/-- Model of the cache update for one result row:
`cached = cache.get(name, []); cached.append(ver); cache[name] = cached`.
An existing entry is extended in place; a missing key is added at the end. -/
def cacheAppend (cache : List (String × List Nat)) (k : String) (v : Nat) :
    List (String × List Nat) :=
  match cache with
  | [] => [(k, [v])]
  | (k0, v0) :: rest =>
    if k0 == k then (k0, v0 ++ [v]) :: rest else (k0, v0) :: cacheAppend rest k v

/-- The per-requirement body of the final loop of
`validate_requirements_in_snowflake_conda_channel`: filter the cached
versions of the package through the requirement's specifier; `none` when no
version qualifies, otherwise pin the maximum qualifying version. -/
def pinRequirement (cache : List (String × List Nat)) (req : Requirement) :
    Option String :=
  let availableVersions := ((cacheFind? cache req.name).getD []).filter req.specifier
  match availableVersions.max? with
  | none => none
  | some latestVersion => some (req.name ++ "==" ++ toString latestVersion)

/-- The final loop of `validate_requirements_in_snowflake_conda_channel`:
pin every requirement, returning `none` as soon as one has no available
version (Python's early `return None`). -/
def pinAll (cache : List (String × List Nat)) :
    List Requirement → Option (List String)
  | [] => some []
  | req :: reqs =>
    match pinRequirement cache req with
    | none => none
    | some s =>
      match pinAll cache reqs with
      | none => none
      | some l => some (s :: l)

/-- The cache update performed by the result-row loop of
`validate_requirements_in_snowflake_conda_channel`: for each queried name
(in the SQL result set) append its catalog versions, row by row. -/
def cacheAddRows (cache : List (String × List Nat)) (names : List String)
    (catalog : String → List Nat) : List (String × List Nat) :=
  names.foldl (fun c n => (catalog n).foldl (fun c' v => cacheAppend c' n v) c) cache

/-- Model of `validate_requirements_in_snowflake_conda_channel`.

The external state is made explicit:
* `catalog n` is the list of versions the SQL query over
  `information_schema.packages` returns for package name `n` (the query's
  result rows); the `sorted` OR-clause the code builds only determines which
  names are queried, so it is modelled by the deduplicated set of requested
  names;
* `queryFails` models the query raising `snowflake.connector.DataError`
  (only observable when a query is actually issued);
* `cache` is the module-level `_SNOWFLAKE_CONDA_PACKAGE_CACHE` before the
  call; the first component of the result is its state after the call. -/
def validateRequirementsInSnowflakeCondaChannel
    (catalog : String → List Nat) (queryFails : Bool)
    (cache : List (String × List Nat)) (reqs : List Requirement) :
    List (String × List Nat) × Option (List String) :=
  let reqsToRequest := reqs.filter (fun req => (cacheFind? cache req.name).isNone)
  if reqsToRequest.isEmpty then
    (cache, (pinAll cache reqs).map sortStrings)
  else if queryFails then
    (cache, none)
  else
    let newCache := cacheAddRows cache ((reqsToRequest.map (fun req => req.name)).dedup) catalog
    (newCache, (pinAll newCache reqs).map sortStrings)

/-- Model of a conda solver package record (`pkg_record.name`,
`pkg_record.version`). -/
structure PackageRecord where
  name : String
  version : Nat

/-- Outcome of `conda_solver.solve_final_state()` for the given channels and
specs: either the final package records, or one of the caught
not-found/unsatisfiable exceptions (`ResolvePackageNotFound`,
`UnsatisfiableError`, `PackagesNotFoundError`, `LibMambaUnsatisfiableError`). -/
inductive SolverOutcome where
  | solved (records : List PackageRecord)
  | unsolvable

/-- Model of `resolve_conda_environment`, parameterized by the external
solver's outcome (the channels and specs only reach the solver, so they are
absorbed into `solverResult`). -/
def resolveCondaEnvironment (solverResult : SolverOutcome)
    (packages : List Requirement) : Option (List String) :=
  match solverResult with
  | .unsolvable => none
  | .solved records =>
    let packageNames := packages.map (fun p => p.name)
    some (sortStrings (records.filterMap (fun pkg =>
      if packageNames.contains pkg.name then
        some (pkg.name ++ "==" ++ toString pkg.version)
      else none)))

/-! ### Lemmas about name canonicalization -/

lemma toNat_ofNat_of_lt {n : Nat} (h : n < 55296) : (Char.ofNat n).toNat = n := by
  have hv : n.isValidChar := Or.inl h
  simp [Char.ofNat, hv, Char.ofNatAux, Char.toNat, UInt32.toNat, BitVec.toNat_ofNat]

lemma char_toLower_toLower (c : Char) : c.toLower.toLower = c.toLower := by
  simp only [Char.toLower]
  by_cases h : c.toNat ≥ 65 ∧ c.toNat ≤ 90
  · rw [if_pos h]
    have h32 : (Char.ofNat (c.toNat + 32)).toNat = c.toNat + 32 :=
      toNat_ofNat_of_lt (by omega)
    rw [if_neg (by rw [h32]; omega)]
  · rw [if_neg h, if_neg h]

lemma isSepChar_toLower {c : Char} (h : isSepChar c = false) :
    isSepChar c.toLower = false := by
  simp only [Char.toLower]
  by_cases h' : c.toNat ≥ 65 ∧ c.toNat ≤ 90
  · rw [if_pos h']
    have h32 : (Char.ofNat (c.toNat + 32)).toNat = c.toNat + 32 :=
      toNat_ofNat_of_lt (by omega)
    have hd : ('-' : Char).toNat = 45 := by decide
    have hu : ('_' : Char).toNat = 95 := by decide
    have hp : ('.' : Char).toNat = 46 := by decide
    simp only [isSepChar, Bool.or_eq_false_iff, beq_eq_false_iff_ne]
    refine ⟨⟨fun he => ?_, fun he => ?_⟩, fun he => ?_⟩
    · have h1 := congrArg Char.toNat he
      rw [h32, hd] at h1
      omega
    · have h1 := congrArg Char.toNat he
      rw [h32, hu] at h1
      omega
    · have h1 := congrArg Char.toNat he
      rw [h32, hp] at h1
      omega
  · rw [if_neg h']
    exact h

lemma canonAux_true_head (l : List Char) :
    canonAux true l = [] ∨
      ∃ c rest, canonAux true l = c :: rest ∧ isSepChar c = false := by
  induction l with
  | nil => exact Or.inl rfl
  | cons c rest ih =>
    cases hsep : isSepChar c with
    | true => simpa [canonAux, hsep] using ih
    | false =>
      exact Or.inr ⟨c.toLower, canonAux false rest, by simp [canonAux, hsep],
        isSepChar_toLower hsep⟩

lemma canonAux_idem (l : List Char) : ∀ b, canonAux false (canonAux b l) = canonAux b l := by
  induction l with
  | nil => intro b; rfl
  | cons c rest ih =>
    intro b
    cases hsep : isSepChar c with
    | false =>
      simp [canonAux, hsep, char_toLower_toLower, isSepChar_toLower hsep, ih false]
    | true =>
      cases b with
      | true => simpa [canonAux, hsep] using ih true
      | false =>
        have key : canonAux true (canonAux true rest) = canonAux true rest := by
          rcases canonAux_true_head rest with h | ⟨c', r', heq, hns⟩
          · rw [h]; rfl
          · have iht := ih true
            rw [heq] at iht ⊢
            have hfs : canonAux true (c' :: r') = canonAux false (c' :: r') := by
              simp [canonAux, hns]
            rw [hfs, iht]
        have hdash : isSepChar '-' = true := by decide
        simp [canonAux, hsep, hdash, key]

/-- PEP 503 canonicalization is idempotent. -/
lemma canonicalizeName_idem (s : String) :
    canonicalizeName (canonicalizeName s) = canonicalizeName s :=
  congrArg String.mk (canonAux_idem s.data false)

/-! ### Lemmas about appending requirements -/

lemma any_same_iff (l : List Requirement) (r : Requirement) :
    (l.any fun q => checkIfRequirementSame r q) = true ↔ ∃ q ∈ l, q.name = r.name := by
  simp only [List.any_eq_true, checkIfRequirementSame, beq_iff_eq]
  constructor
  · rintro ⟨q, hq, he⟩
    exact ⟨q, hq, he.symm⟩
  · rintro ⟨q, hq, he⟩
    exact ⟨q, hq, he.symm⟩

lemma appendRequirementList_of_dup {l : List Requirement} {r : Requirement}
    (h : ∃ q ∈ l, q.name = r.name) :
    appendRequirementList l r = (l, some .duplicateDependency) := by
  simp [appendRequirementList, (any_same_iff l r).2 h]

lemma appendRequirementList_of_not_dup {l : List Requirement} {r : Requirement}
    (h : ∀ q ∈ l, q.name ≠ r.name) :
    appendRequirementList l r = (l ++ [r], none) := by
  have : ¬(l.any fun q => checkIfRequirementSame r q) = true := by
    rw [any_same_iff]
    rintro ⟨q, hq, he⟩
    exact h q hq he
  simp [appendRequirementList, this]

/-- A sample parser and requirement used to instantiate theorems with
hypotheses at concrete inputs. -/
def sampleReq (n : String) : Requirement :=
  { name := n, extras := false, url := false, marker := false, specifier := fun _ => true }

def sampleParse : String → Option Requirement :=
  fun s => some (sampleReq s)

/-- C8: whenever `append_requirement_list` raises `DuplicateDependencyError`,
the target requirement list is left unchanged; whenever
`append_conda_dependency` raises `DuplicateDependencyError` or
`DuplicateDependencyInMultipleChannelsError`, the target conda-dependency
dict is left unchanged (no key added, no list modified). -/
theorem append_error_leaves_target_unchanged :
    ∀ (reqList : List Requirement) (pReq : Requirement)
      (d : List (String × List Requirement)) (p : String × Requirement) (e : EnvError),
      ((appendRequirementList reqList pReq).2 = some e →
        (appendRequirementList reqList pReq).1 = reqList)
      ∧ ((appendCondaDependency d p).2 = some e →
        (appendCondaDependency d p).1 = d) := by
  intro l r d p e
  constructor
  · intro h
    by_cases hd : (l.any fun q => checkIfRequirementSame r q) = true
    · simp [appendRequirementList, hd]
    · simp [appendRequirementList, hd] at h
  · intro h
    unfold appendCondaDependency at h ⊢
    cases hf : findDupChannel d p.2 with
    | some c0 =>
      by_cases hc : c0 ≠ p.1 <;> simp [hf, hc]
    | none =>
      rw [hf] at h
      simp at h

theorem append_error_leaves_target_unchanged_witness :
    (appendRequirementList [sampleReq "numpy"] (sampleReq "numpy")).1 = [sampleReq "numpy"]
    ∧ (appendCondaDependency [("conda-forge", [sampleReq "numpy"])]
        ("defaults", sampleReq "numpy")).1 = [("conda-forge", [sampleReq "numpy"])] :=
  ⟨(append_error_leaves_target_unchanged [sampleReq "numpy"] (sampleReq "numpy")
      [] ("", sampleReq "x") .duplicateDependency).1 (by decide),
   (append_error_leaves_target_unchanged [] (sampleReq "x")
      [("conda-forge", [sampleReq "numpy"])] ("defaults", sampleReq "numpy")
      .duplicateDependencyInMultipleChannels).2 (by decide)⟩

/-- C3 (counterexample): `validate_pip_requirement_string_list` does not
merge two requirement strings with the same package name into a single
entry; it raises `DuplicateDependencyError`. -/
theorem validatePip_no_merge_counterexample :
    validatePipRequirementStringList sampleParse ["numpy", "numpy"] =
      .error .duplicateDependency := by
  rfl

/-- C3 (amended): when the appended requirement's package name already
appears in the list, `append_requirement_list` raises
`DuplicateDependencyError` and leaves the list unchanged rather than
merging; otherwise the requirement is appended. -/
theorem appendRequirementList_duplicate_raises :
    ∀ (l : List Requirement) (r : Requirement),
      ((∃ q ∈ l, q.name = r.name) →
        appendRequirementList l r = (l, some .duplicateDependency))
      ∧ ((∀ q ∈ l, q.name ≠ r.name) →
        appendRequirementList l r = (l ++ [r], none)) :=
  fun _ _ => ⟨fun h => appendRequirementList_of_dup h,
    fun h => appendRequirementList_of_not_dup h⟩

theorem appendRequirementList_duplicate_raises_witness :
    appendRequirementList [sampleReq "numpy"] (sampleReq "numpy") =
      ([sampleReq "numpy"], some .duplicateDependency)
    ∧ appendRequirementList [] (sampleReq "numpy") = ([sampleReq "numpy"], none) :=
  ⟨(appendRequirementList_duplicate_raises [sampleReq "numpy"] (sampleReq "numpy")).1
      ⟨sampleReq "numpy", by simp⟩,
   (appendRequirementList_duplicate_raises [] (sampleReq "numpy")).2 (by simp)⟩

/-- C4: `_validate_pip_requirement_string` raises `ValueError` exactly when
the string fails PEP 508 parsing or the parsed requirement carries an
environment marker; otherwise it returns the parsed requirement with its
name canonicalized and everything else (extras, url, marker, version
specifier) unchanged. -/
theorem validatePipRequirementString_spec :
    ∀ (parse : String → Option Requirement) (s : String),
      (validatePipRequirementString parse s = .error .valueError ↔
        parse s = none ∨ ∃ r, parse s = some r ∧ r.marker = true)
      ∧ (∀ r, parse s = some r → r.marker = false →
          validatePipRequirementString parse s =
            .ok { r with name := canonicalizeName r.name }) := by
  intro parse s
  constructor
  · cases h : parse s with
    | none => simp [validatePipRequirementString, h]
    | some r0 =>
      cases hm : r0.marker with
      | true => simp [validatePipRequirementString, h, hm]
      | false => simp [validatePipRequirementString, h, hm]
  · intro r hr hm
    simp [validatePipRequirementString, hr, hm]

theorem validatePipRequirementString_spec_witness :
    validatePipRequirementString sampleParse "Numpy" =
      .ok { sampleReq "Numpy" with name := canonicalizeName "Numpy" } :=
  (validatePipRequirementString_spec sampleParse "Numpy").2 (sampleReq "Numpy") rfl rfl

/-! ### Lemmas about the conda dependency dict -/

/-- All requirements stored in the dict, in iteration order. -/
def dictReqs : List (String × List Requirement) → List Requirement
  | [] => []
  | p :: rest => p.2 ++ dictReqs rest

lemma mem_dictReqs {q : Requirement} {d : List (String × List Requirement)} :
    q ∈ dictReqs d ↔ ∃ p ∈ d, q ∈ p.2 := by
  induction d with
  | nil => simp [dictReqs]
  | cons p rest ih => simp [dictReqs, ih]

lemma findDupChannel_eq_none_iff (d : List (String × List Requirement))
    (r : Requirement) :
    findDupChannel d r = none ↔ ∀ q ∈ dictReqs d, q.name ≠ r.name := by
  induction d with
  | nil => simp [findDupChannel, dictReqs]
  | cons p rest ih =>
    obtain ⟨k0, v0⟩ := p
    cases h : (v0.any fun q => checkIfRequirementSame r q) with
    | true =>
      obtain ⟨q, hq, he⟩ := (any_same_iff v0 r).1 h
      simp only [findDupChannel, h, if_true, dictReqs]
      constructor
      · intro hfalse
        cases hfalse
      · intro hall
        exact absurd he (hall q (List.mem_append.2 (Or.inl hq)))
    | false =>
      have hv0 : ∀ q ∈ v0, q.name ≠ r.name := by
        intro q hq he
        have := (any_same_iff v0 r).2 ⟨q, hq, he⟩
        rw [this] at h
        cases h
      simp only [findDupChannel, h, if_false, dictReqs, Bool.false_eq_true]
      rw [ih]
      constructor
      · intro hrest q hq
        rcases List.mem_append.1 hq with h1 | h2
        · exact hv0 q h1
        · exact hrest q h2
      · intro hall q hq
        exact hall q (List.mem_append.2 (Or.inr hq))

lemma findDupChannel_eq_some_mem {d : List (String × List Requirement)}
    {r : Requirement} {c0 : String} (h : findDupChannel d r = some c0) :
    ∃ l0, (c0, l0) ∈ d ∧ ∃ q ∈ l0, q.name = r.name := by
  induction d with
  | nil => cases h
  | cons p rest ih =>
    obtain ⟨k0, v0⟩ := p
    cases ha : (v0.any fun q => checkIfRequirementSame r q) with
    | true =>
      obtain ⟨q, hq, he⟩ := (any_same_iff v0 r).1 ha
      simp only [findDupChannel, ha, if_true] at h
      cases h
      exact ⟨v0, List.mem_cons_self _ _, q, hq, he⟩
    | false =>
      simp only [findDupChannel, ha, Bool.false_eq_true, if_false] at h
      obtain ⟨l0, hl0, hq⟩ := ih h
      exact ⟨l0, List.mem_cons_of_mem _ hl0, hq⟩

lemma findDupChannel_channel_unique {d : List (String × List Requirement)}
    {r : Requirement} {c0 : String}
    (wf : (dictReqs d).Pairwise (fun a b => a.name ≠ b.name))
    (h : findDupChannel d r = some c0) :
    ∀ p ∈ d, (∃ q ∈ p.2, q.name = r.name) → p.1 = c0 := by
  induction d with
  | nil => cases h
  | cons p0 rest ih =>
    obtain ⟨k0, v0⟩ := p0
    have wf' := (List.pairwise_append.1 (by simpa [dictReqs] using wf))
    intro p hp hq
    obtain ⟨q, hqmem, hqname⟩ := hq
    cases ha : (v0.any fun q => checkIfRequirementSame r q) with
    | true =>
      simp only [findDupChannel, ha, if_true] at h
      cases h
      obtain ⟨q0, hq0, he0⟩ := (any_same_iff v0 r).1 ha
      rcases List.mem_cons.1 hp with rfl | hrest
      · rfl
      · have hqd : q ∈ dictReqs rest := mem_dictReqs.2 ⟨p, hrest, hqmem⟩
        have := wf'.2.2 q0 hq0 q hqd
        exact absurd (he0.trans hqname.symm) this
    | false =>
      simp only [findDupChannel, ha, Bool.false_eq_true, if_false] at h
      rcases List.mem_cons.1 hp with rfl | hrest
      · have := (any_same_iff v0 r).2 ⟨q, hqmem, hqname⟩
        rw [this] at ha
        cases ha
      · exact ih wf'.2.1 h p hrest ⟨q, hqmem, hqname⟩

/-- C1: channel-level conflict detection in `append_conda_dependency`: for a
dict with no duplicate package names (the invariant maintained by
`validate_conda_dependency_string_list`),
`DuplicateDependencyInMultipleChannelsError` is raised exactly when the
appended requirement's package name already exists under a different
channel, `DuplicateDependencyError` exactly when it exists under the same
channel, and otherwise the requirement is appended to its channel's list. -/
theorem appendCondaDependency_conflict_spec :
    ∀ (d : List (String × List Requirement)) (c : String) (r : Requirement),
      (dictReqs d).Pairwise (fun a b => a.name ≠ b.name) →
      ((appendCondaDependency d (c, r)).2 = some .duplicateDependencyInMultipleChannels ↔
        ∃ p ∈ d, p.1 ≠ c ∧ ∃ q ∈ p.2, q.name = r.name)
      ∧ ((appendCondaDependency d (c, r)).2 = some .duplicateDependency ↔
        ∃ p ∈ d, p.1 = c ∧ ∃ q ∈ p.2, q.name = r.name)
      ∧ ((appendCondaDependency d (c, r)).2 = none →
        (appendCondaDependency d (c, r)).1 = dictAppend d c r) := by
  intro d c r wf
  cases hf : findDupChannel d r with
  | none =>
    have hno : ∀ q ∈ dictReqs d, q.name ≠ r.name := (findDupChannel_eq_none_iff d r).1 hf
    refine ⟨?_, ?_, ?_⟩
    · simp only [appendCondaDependency, hf]
      constructor
      · intro hfalse
        cases hfalse
      · rintro ⟨p, hp, -, q, hq, he⟩
        exact absurd he (hno q (mem_dictReqs.2 ⟨p, hp, hq⟩))
    · simp only [appendCondaDependency, hf]
      constructor
      · intro hfalse
        cases hfalse
      · rintro ⟨p, hp, -, q, hq, he⟩
        exact absurd he (hno q (mem_dictReqs.2 ⟨p, hp, hq⟩))
    · intro _
      simp [appendCondaDependency, hf]
  | some c0 =>
    obtain ⟨l0, hl0, q0, hq0, he0⟩ := findDupChannel_eq_some_mem hf
    have huniq := findDupChannel_channel_unique wf hf
    by_cases hc : c0 = c
    · subst hc
      refine ⟨?_, ?_, ?_⟩
      · simp only [appendCondaDependency, hf, ne_eq, not_true_eq_false, if_neg,
          if_false, not_not]
        constructor
        · intro hfalse
          simp at hfalse
        · rintro ⟨p, hp, hne, q, hq, he⟩
          exact absurd (huniq p hp ⟨q, hq, he⟩) hne
      · simp only [appendCondaDependency, hf, ne_eq, not_true_eq_false, if_false]
        constructor
        · intro _
          exact ⟨(c0, l0), hl0, rfl, q0, hq0, he0⟩
        · intro _
          trivial
      · intro hfalse
        simp [appendCondaDependency, hf] at hfalse
    · refine ⟨?_, ?_, ?_⟩
      · simp only [appendCondaDependency, hf, ne_eq, hc, not_false_eq_true, if_true]
        constructor
        · intro _
          exact ⟨(c0, l0), hl0, fun he => hc he, q0, hq0, he0⟩
        · intro _
          trivial
      · simp only [appendCondaDependency, hf, ne_eq, hc, not_false_eq_true, if_true]
        constructor
        · intro hfalse
          simp at hfalse
        · rintro ⟨p, hp, hpc, q, hq, he⟩
          exact absurd ((huniq p hp ⟨q, hq, he⟩).symm.trans hpc) hc
      · intro hfalse
        simp [appendCondaDependency, hf, hc] at hfalse

theorem appendCondaDependency_conflict_spec_witness :
    (appendCondaDependency [("conda-forge", [sampleReq "numpy"])]
      ("defaults", sampleReq "numpy")).2 = some .duplicateDependencyInMultipleChannels :=
  ((appendCondaDependency_conflict_spec [("conda-forge", [sampleReq "numpy"])]
      "defaults" (sampleReq "numpy") (by simp [dictReqs])).1).2
    ⟨("conda-forge", [sampleReq "numpy"]), by simp, by decide,
      sampleReq "numpy", by simp, rfl⟩

/-! ### The no-duplicate-name invariant -/

/-- The invariant maintained by the validation loops: pairwise-distinct
package names, all in canonical form. -/
def ReqListInv (l : List Requirement) : Prop :=
  l.Pairwise (fun a b => a.name ≠ b.name) ∧ ∀ r ∈ l, canonicalizeName r.name = r.name

lemma validatePipRequirementString_ok_canonical
    {parse : String → Option Requirement} {s : String} {r : Requirement}
    (h : validatePipRequirementString parse s = .ok r) :
    canonicalizeName r.name = r.name := by
  unfold validatePipRequirementString at h
  cases hp : parse s with
  | none =>
    rw [hp] at h
    cases h
  | some r0 =>
    rw [hp] at h
    cases hm : r0.marker with
    | true => simp [hm] at h
    | false =>
      simp [hm] at h
      rw [← h]
      exact canonicalizeName_idem r0.name

lemma pipAppendStep_ok_inv {parse : String → Option Requirement}
    {acc acc' : List Requirement} {s : String}
    (h : pipAppendStep parse acc s = .ok acc') (hinv : ReqListInv acc) :
    ReqListInv acc' := by
  cases hv : validatePipRequirementString parse s with
  | error e =>
    simp [pipAppendStep, hv] at h
  | ok r =>
    by_cases hd : ∃ q ∈ acc, q.name = r.name
    · simp [pipAppendStep, hv, appendRequirementList_of_dup hd] at h
    · push_neg at hd
      simp only [pipAppendStep, hv, appendRequirementList_of_not_dup hd,
        Except.ok.injEq] at h
      subst h
      constructor
      · rw [List.pairwise_append]
        refine ⟨hinv.1, by simp, ?_⟩
        intro a ha b hb
        simp only [List.mem_singleton] at hb
        subst hb
        exact hd a ha
      · intro x hx
        rcases List.mem_append.1 hx with h1 | h2
        · exact hinv.2 x h1
        · simp only [List.mem_singleton] at h2
          subst h2
          exact validatePipRequirementString_ok_canonical hv

lemma pipFold_inv {parse : String → Option Requirement} :
    ∀ (ss : List String) (acc out : List Requirement),
      ReqListInv acc → pipFold parse acc ss = .ok out → ReqListInv out := by
  intro ss
  induction ss with
  | nil =>
    intro acc out hi h
    simp only [pipFold, Except.ok.injEq] at h
    exact h ▸ hi
  | cons s ss ih =>
    intro acc out hi h
    unfold pipFold at h
    cases hs : pipAppendStep parse acc s with
    | error e =>
      rw [hs] at h
      cases h
    | ok acc' =>
      rw [hs] at h
      exact ih acc' out (pipAppendStep_ok_inv hs hi) h

lemma validateCondaDependencyString_ok_canonical
    {parse : String → Option Requirement} {s : String} {p : String × Requirement}
    (h : validateCondaDependencyString parse s = .ok p) :
    canonicalizeName p.2.name = p.2.name := by
  cases hv : validatePipRequirementString parse (rpartitionSep s).2 with
  | error e =>
    simp [validateCondaDependencyString, hv] at h
  | ok r =>
    have hc := validatePipRequirementString_ok_canonical hv
    by_cases hch : (if (rpartitionSep s).1 = "" then "defaults" else (rpartitionSep s).1) ≠ "pip"
    · cases hex : r.extras with
      | true =>
        simp [validateCondaDependencyString, hv, hch, hex] at h
      | false =>
        cases hu : r.url with
        | true =>
          simp [validateCondaDependencyString, hv, hch, hex, hu] at h
        | false =>
          simp only [validateCondaDependencyString, hv, if_pos hch, hex, hu,
            Bool.false_eq_true, if_false, Except.ok.injEq] at h
          rw [← h]
          exact hc
    · simp only [validateCondaDependencyString, hv, if_neg hch, Except.ok.injEq] at h
      rw [← h]
      exact hc

lemma condaMapValidate_ok_canonical {parse : String → Option Requirement} :
    ∀ (ss : List String) (ps : List (String × Requirement)),
      condaMapValidate parse ss = .ok ps →
      ∀ p ∈ ps, canonicalizeName p.2.name = p.2.name := by
  intro ss
  induction ss with
  | nil =>
    intro ps h
    simp only [condaMapValidate, Except.ok.injEq] at h
    subst h
    intro p hp
    cases hp
  | cons s ss ih =>
    intro ps h
    unfold condaMapValidate at h
    cases hv : validateCondaDependencyString parse s with
    | error e =>
      rw [hv] at h
      cases h
    | ok p0 =>
      rw [hv] at h
      cases hm : condaMapValidate parse ss with
      | error e =>
        rw [hm] at h
        cases h
      | ok ps0 =>
        rw [hm] at h
        simp only [Except.ok.injEq] at h
        subst h
        intro p hp
        rcases List.mem_cons.1 hp with rfl | hmem
        · exact validateCondaDependencyString_ok_canonical hv
        · exact ih ps0 hm p hmem

lemma dictReqs_dictAppend_perm (d : List (String × List Requirement))
    (k : String) (r : Requirement) :
    (dictReqs (dictAppend d k r)).Perm (r :: dictReqs d) := by
  induction d with
  | nil => simp [dictAppend, dictReqs]
  | cons p rest ih =>
    obtain ⟨k0, v0⟩ := p
    by_cases hk : k0 == k
    · simp only [dictAppend, hk, if_true, dictReqs]
      have h1 : (v0 ++ [r]) ++ dictReqs rest = v0 ++ r :: dictReqs rest := by
        simp
      rw [h1]
      exact List.perm_middle
    · simp only [dictAppend, hk, if_false, dictReqs, Bool.false_eq_true]
      exact (ih.append_left v0).trans List.perm_middle

/-- The conda-dict form of the invariant. -/
def DictInv (d : List (String × List Requirement)) : Prop :=
  (dictReqs d).Pairwise (fun a b => a.name ≠ b.name) ∧
    ∀ r ∈ dictReqs d, canonicalizeName r.name = r.name

lemma condaAppendStep_ok_inv {d d' : List (String × List Requirement)}
    {p : String × Requirement} (h : condaAppendStep d p = .ok d')
    (hcanon : canonicalizeName p.2.name = p.2.name) (hinv : DictInv d) :
    DictInv d' := by
  unfold condaAppendStep appendCondaDependency at h
  cases hf : findDupChannel d p.2 with
  | some c0 =>
    rw [hf] at h
    by_cases hc : c0 ≠ p.1 <;> simp [hc] at h
  | none =>
    rw [hf] at h
    simp only [Except.ok.injEq] at h
    subst h
    have hno : ∀ q ∈ dictReqs d, q.name ≠ p.2.name :=
      (findDupChannel_eq_none_iff d p.2).1 hf
    have hperm := dictReqs_dictAppend_perm d p.1 p.2
    have hsymm : ∀ {a b : Requirement}, a.name ≠ b.name → b.name ≠ a.name :=
      fun hab he => hab he.symm
    constructor
    · rw [hperm.pairwise_iff hsymm]
      rw [List.pairwise_cons]
      exact ⟨fun b hb => fun he => hno b hb (he.symm), hinv.1⟩
    · intro x hx
      rcases List.mem_cons.1 (hperm.subset hx) with rfl | hmem
      · exact hcanon
      · exact hinv.2 x hmem

lemma condaFold_inv :
    ∀ (ps : List (String × Requirement)) (d out : List (String × List Requirement)),
      DictInv d → (∀ p ∈ ps, canonicalizeName p.2.name = p.2.name) →
      condaFold d ps = .ok out → DictInv out := by
  intro ps
  induction ps with
  | nil =>
    intro d out hi _ h
    simp only [condaFold, Except.ok.injEq] at h
    exact h ▸ hi
  | cons p ps ih =>
    intro d out hi hcanon h
    unfold condaFold at h
    cases hs : condaAppendStep d p with
    | error e =>
      rw [hs] at h
      cases h
    | ok d1 =>
      rw [hs] at h
      exact ih d1 out (condaAppendStep_ok_inv hs (hcanon p (List.mem_cons_self _ _)) hi)
        (fun q hq => hcanon q (List.mem_cons_of_mem _ hq)) h

/-- C2: every list returned by `validate_pip_requirement_string_list`
contains at most one requirement per canonical package name, and every dict
returned by `validate_conda_dependency_string_list` contains each canonical
package name at most once across all channel lists combined. -/
theorem validate_no_duplicate_names :
    ∀ (parse : String → Option Requirement) (ss ds : List String)
      (l : List Requirement) (d : List (String × List Requirement)),
      (validatePipRequirementStringList parse ss = .ok l →
        l.Pairwise (fun a b => canonicalizeName a.name ≠ canonicalizeName b.name))
      ∧ (validateCondaDependencyStringList parse ds = .ok d →
        (dictReqs d).Pairwise
          (fun a b => canonicalizeName a.name ≠ canonicalizeName b.name)) := by
  intro parse ss ds l d
  constructor
  · intro h
    have hinv : ReqListInv l := by
      apply pipFold_inv ss [] l _ h
      exact ⟨List.Pairwise.nil, by intro r hr; cases hr⟩
    refine hinv.1.imp_of_mem ?_
    intro a b ha hb hab
    rw [hinv.2 a ha, hinv.2 b hb]
    exact hab
  · intro h
    unfold validateCondaDependencyStringList at h
    cases hm : condaMapValidate parse ds with
    | error e =>
      rw [hm] at h
      cases h
    | ok validated =>
      rw [hm] at h
      have hinv : DictInv d := by
        apply condaFold_inv validated [] d _ (condaMapValidate_ok_canonical ds validated hm) h
        exact ⟨List.Pairwise.nil, by intro r hr; cases hr⟩
      refine hinv.1.imp_of_mem ?_
      intro a b ha hb hab
      rw [hinv.2 a ha, hinv.2 b hb]
      exact hab

theorem validate_no_duplicate_names_witness :
    ∃ (l : List Requirement) (d : List (String × List Requirement)),
      validatePipRequirementStringList sampleParse ["numpy", "pandas"] = .ok l
      ∧ validateCondaDependencyStringList sampleParse ["conda-forge::numpy"] = .ok d
      ∧ l.Pairwise (fun a b => canonicalizeName a.name ≠ canonicalizeName b.name)
      ∧ (dictReqs d).Pairwise
          (fun a b => canonicalizeName a.name ≠ canonicalizeName b.name) := by
  refine ⟨_, _, rfl, rfl, ?_, ?_⟩
  · exact (validate_no_duplicate_names sampleParse ["numpy", "pandas"]
      ["conda-forge::numpy"] _ []).1 rfl
  · exact (validate_no_duplicate_names sampleParse ["numpy", "pandas"]
      ["conda-forge::numpy"] [] _).2 rfl

/-! ### Canonicalization makes duplicate detection spelling-insensitive -/

/-- C9: validation canonicalizes each requirement's package name, so two
requirement strings whose names canonicalize to the same name (e.g.
differing only in case or in `_` versus `-`) are detected as duplicates:
`validate_pip_requirement_string_list` raises `DuplicateDependencyError` on
a list containing both, and `validate_conda_dependency_string_list` treats
them as the same package for conflict detection (here: both without a
channel prefix, hence both on channel `"defaults"`). -/
theorem canonicalization_spelling_insensitive :
    ∀ (parse : String → Option Requirement) (s1 s2 : String) (r1 r2 : Requirement),
      parse s1 = some r1 → parse s2 = some r2 →
      r1.marker = false → r2.marker = false →
      canonicalizeName r1.name = canonicalizeName r2.name →
      validatePipRequirementStringList parse [s1, s2] = .error .duplicateDependency
      ∧ (rpartAux s1.data = none → rpartAux s2.data = none →
          r1.extras = false → r1.url = false → r2.extras = false → r2.url = false →
          validateCondaDependencyStringList parse [s1, s2] =
            .error .duplicateDependency) := by
  intro parse s1 s2 r1 r2 hp1 hp2 hm1 hm2 hc
  have h1 := (validatePipRequirementString_spec parse s1).2 r1 hp1 hm1
  have h2 := (validatePipRequirementString_spec parse s2).2 r2 hp2 hm2
  have hname : ({ r2 with name := canonicalizeName r2.name } : Requirement).name =
      ({ r1 with name := canonicalizeName r1.name } : Requirement).name := hc.symm
  constructor
  · have e1 : pipAppendStep parse [] s1 =
        .ok [{ r1 with name := canonicalizeName r1.name }] := by
      simp [pipAppendStep, h1, appendRequirementList]
    have e2 : pipAppendStep parse [{ r1 with name := canonicalizeName r1.name }] s2 =
        .error .duplicateDependency := by
      have hdup : ∃ q ∈ [{ r1 with name := canonicalizeName r1.name }],
          q.name = ({ r2 with name := canonicalizeName r2.name } : Requirement).name :=
        ⟨_, List.mem_singleton_self _, hname.symm⟩
      simp [pipAppendStep, h2, appendRequirementList_of_dup hdup]
    simp [validatePipRequirementStringList, pipFold, e1, e2]
  · intro hn1 hn2 hex1 hu1 hex2 hu2
    have hps1 : rpartitionSep s1 = ("", s1) := by simp [rpartitionSep, hn1]
    have hps2 : rpartitionSep s2 = ("", s2) := by simp [rpartitionSep, hn2]
    have f1 : validateCondaDependencyString parse s1 =
        .ok ("defaults", { r1 with name := canonicalizeName r1.name }) := by
      simp [validateCondaDependencyString, hps1, h1, hex1, hu1]
    have f2 : validateCondaDependencyString parse s2 =
        .ok ("defaults", { r2 with name := canonicalizeName r2.name }) := by
      simp [validateCondaDependencyString, hps2, h2, hex2, hu2]
    have g1 : condaAppendStep []
        ("defaults", { r1 with name := canonicalizeName r1.name }) =
        .ok [("defaults", [{ r1 with name := canonicalizeName r1.name }])] := by
      simp [condaAppendStep, appendCondaDependency, findDupChannel, dictAppend]
    have g2 : condaAppendStep [("defaults", [{ r1 with name := canonicalizeName r1.name }])]
        ("defaults", { r2 with name := canonicalizeName r2.name }) =
        .error .duplicateDependency := by
      have hfd : findDupChannel
          [("defaults", [{ r1 with name := canonicalizeName r1.name }])]
          { r2 with name := canonicalizeName r2.name } = some "defaults" := by
        simp only [findDupChannel, checkIfRequirementSame, List.any_cons,
          List.any_nil, Bool.or_false]
        rw [if_pos]
        exact beq_iff_eq.2 hname
      simp [condaAppendStep, appendCondaDependency, hfd]
    simp [validateCondaDependencyStringList, condaMapValidate, f1, f2, condaFold, g1, g2]

theorem canonicalization_spelling_insensitive_witness :
    validatePipRequirementStringList sampleParse ["Foo_Bar", "foo-bar"] =
      .error .duplicateDependency
    ∧ validateCondaDependencyStringList sampleParse ["Foo_Bar", "foo-bar"] =
      .error .duplicateDependency := by
  have h := canonicalization_spelling_insensitive sampleParse "Foo_Bar" "foo-bar"
    (sampleReq "Foo_Bar") (sampleReq "foo-bar") rfl rfl rfl rfl (by decide)
  exact ⟨h.1, h.2 (by decide) (by decide) rfl rfl rfl rfl⟩

/-! ### Channel splitting -/

lemma rpartAux_none_iff : ∀ l : List Char, rpartAux l = none ↔ ¬ List.IsInfix [':', ':'] l := by
  intro l
  induction l with
  | nil =>
    constructor
    · rintro - ⟨s, t, h⟩
      have := congrArg List.length h
      simp at this
    · intro _
      rfl
  | cons c1 tail ih =>
    cases tail with
    | nil =>
      constructor
      · rintro - ⟨s, t, h⟩
        have := congrArg List.length h
        simp at this
        omega
      · intro _
        rfl
    | cons c2 rest =>
      constructor
      · intro h hinf
        cases hr : rpartAux (c2 :: rest) with
        | some p =>
          simp only [rpartAux, hr] at h
          exact Option.noConfusion h
        | none =>
          simp only [rpartAux, hr] at h
          by_cases hcc : c1 = ':' ∧ c2 = ':'
          · rw [if_pos hcc] at h
            cases h
          · rcases hinf with ⟨s, t, hst⟩
            cases s with
            | nil =>
              injection hst with h1 hst'
              injection hst' with h2 _
              exact hcc ⟨h1.symm, h2.symm⟩
            | cons a s' =>
              injection hst with _ hst'
              exact (ih.1 hr) ⟨s', t, hst'⟩
      · intro hninf
        cases hr : rpartAux (c2 :: rest) with
        | some p =>
          exfalso
          have hinf2 : List.IsInfix [':', ':'] (c2 :: rest) := by
            by_contra hno
            rw [ih.2 hno] at hr
            cases hr
          rcases hinf2 with ⟨s, t, hst⟩
          exact hninf ⟨c1 :: s, t, by rw [← hst]; rfl⟩
        | none =>
          simp only [rpartAux, hr]
          rw [if_neg]
          rintro ⟨hc1, hc2⟩
          exact hninf ⟨[], rest, by rw [hc1, hc2]; rfl⟩

lemma rpartAux_some_spec (l : List Char) :
    ∀ a b, rpartAux l = some (a, b) →
      l = a ++ [':', ':'] ++ b ∧ ¬ List.IsInfix [':', ':'] (':' :: b) := by
  induction l with
  | nil =>
    intro a b h
    cases h
  | cons c1 tail ih =>
    cases tail with
    | nil =>
      intro a b h
      simp [rpartAux] at h
    | cons c2 rest =>
      intro a b h
      cases hr : rpartAux (c2 :: rest) with
      | some p =>
        obtain ⟨a', b'⟩ := p
        simp only [rpartAux, hr, Option.some.injEq, Prod.mk.injEq] at h
        obtain ⟨ha, hb⟩ := h
        obtain ⟨ih1, ih2⟩ := ih a' b' hr
        subst ha hb
        constructor
        · rw [List.cons_append, List.cons_append, ← ih1]
        · exact ih2
      | none =>
        simp only [rpartAux, hr] at h
        by_cases hcc : c1 = ':' ∧ c2 = ':'
        · rw [if_pos hcc] at h
          simp only [Option.some.injEq, Prod.mk.injEq] at h
          obtain ⟨ha, hb⟩ := h
          obtain ⟨h1, h2⟩ := hcc
          subst ha hb h1 h2
          constructor
          · rfl
          · exact (rpartAux_none_iff _).1 hr
        · rw [if_neg hcc] at h
          cases h

/-- C10: `_validate_conda_dependency_string` assigns channel `"defaults"`
when the string contains no `"::"` separator (the requirement being the
whole string), splits at the last `"::"` otherwise, raises `ValueError`
when the requirement part carries extras or a URL unless the channel is
exactly `"pip"`, and accepts extras and URLs when the channel is `"pip"`. -/
theorem validateCondaDependencyString_channel_spec :
    ∀ (parse : String → Option Requirement) (depStr : String),
      (¬ List.IsInfix [':', ':'] depStr.data →
        rpartitionSep depStr = ("", depStr)
        ∧ ∀ c r, validateCondaDependencyString parse depStr = .ok (c, r) →
          c = "defaults")
      ∧ (List.IsInfix [':', ':'] depStr.data →
        ∃ pre post, depStr.data = pre ++ [':', ':'] ++ post
          ∧ ¬ List.IsInfix [':', ':'] (':' :: post)
          ∧ rpartitionSep depStr = (String.mk pre, String.mk post))
      ∧ (∀ r, validatePipRequirementString parse (rpartitionSep depStr).2 = .ok r →
          (if (rpartitionSep depStr).1 = "" then "defaults" else (rpartitionSep depStr).1) ≠ "pip" →
          (r.extras = true ∨ r.url = true) →
          validateCondaDependencyString parse depStr = .error .valueError)
      ∧ (∀ r, validatePipRequirementString parse (rpartitionSep depStr).2 = .ok r →
          (if (rpartitionSep depStr).1 = "" then "defaults" else (rpartitionSep depStr).1) = "pip" →
          validateCondaDependencyString parse depStr = .ok ("pip", r)) := by
  intro parse depStr
  refine ⟨?_, ?_, ?_, ?_⟩
  · intro hninf
    have hps : rpartitionSep depStr = ("", depStr) := by
      simp [rpartitionSep, (rpartAux_none_iff depStr.data).2 hninf]
    refine ⟨hps, ?_⟩
    intro c r h
    cases hv : validatePipRequirementString parse (rpartitionSep depStr).2 with
    | error e =>
      simp [validateCondaDependencyString, hv] at h
    | ok r0 =>
      rw [hps] at hv
      simp only [validateCondaDependencyString, hps] at h
      rw [hv] at h
      simp only [] at h
      by_cases hex : r0.extras = true
      · simp [hex] at h
      · by_cases hu : r0.url = true
        · simp [hex, hu] at h
        · simp [hex, hu, Prod.mk.injEq] at h
          exact h.1.symm
  · intro hinf
    cases hr : rpartAux depStr.data with
    | none =>
      exact absurd hinf ((rpartAux_none_iff depStr.data).1 hr)
    | some p =>
      obtain ⟨a, b⟩ := p
      obtain ⟨h1, h2⟩ := rpartAux_some_spec depStr.data a b hr
      exact ⟨a, b, h1, h2, by simp [rpartitionSep, hr]⟩
  · intro r hv hch hor
    rcases hor with hex | hu
    · simp [validateCondaDependencyString, hv, hch, hex]
    · cases hex2 : r.extras with
      | true => simp [validateCondaDependencyString, hv, hch, hex2]
      | false => simp [validateCondaDependencyString, hv, hch, hex2, hu]
  · intro r hv hch
    simp [validateCondaDependencyString, hv, hch]

/-- A sample requirement carrying extras, to exercise the extras/URL
branches. -/
def sampleReqExtras (n : String) : Requirement :=
  { name := n, extras := true, url := false, marker := false, specifier := fun _ => true }

def sampleParseExtras : String → Option Requirement :=
  fun s => some (sampleReqExtras s)

theorem validateCondaDependencyString_channel_spec_witness :
    validateCondaDependencyString sampleParseExtras "numpy" = .error .valueError
    ∧ (∃ r, validatePipRequirementString sampleParseExtras
          (rpartitionSep "pip::numpy").2 = .ok r
        ∧ validateCondaDependencyString sampleParseExtras "pip::numpy" = .ok ("pip", r))
    ∧ (∃ pre post, ("a::b::c" : String).data = pre ++ [':', ':'] ++ post
        ∧ ¬ List.IsInfix [':', ':'] (':' :: post)
        ∧ rpartitionSep "a::b::c" = (String.mk pre, String.mk post)) := by
  refine ⟨?_, ⟨_, rfl, ?_⟩, ?_⟩
  · exact (validateCondaDependencyString_channel_spec sampleParseExtras "numpy").2.2.1
      _ rfl (by decide) (Or.inl rfl)
  · exact (validateCondaDependencyString_channel_spec sampleParseExtras "pip::numpy").2.2.2
      _ rfl (by decide)
  · exact (validateCondaDependencyString_channel_spec sampleParseExtras "a::b::c").2.1
      (by decide)

/-! ### Sorting helpers -/

lemma sortStrings_sorted (l : List String) :
    (sortStrings l).Pairwise (fun a b : String => a ≤ b) := by
  unfold sortStrings
  refine List.Pairwise.imp ?_ (List.sorted_mergeSort ?_ ?_ l)
  · intro a b h
    exact of_decide_eq_true h
  · intro a b c hab hbc
    exact decide_eq_true (le_trans (of_decide_eq_true hab) (of_decide_eq_true hbc))
  · intro a b
    rcases le_total a b with h | h <;> simp [h]

lemma sortStrings_perm (l : List String) : (sortStrings l).Perm l :=
  List.mergeSort_perm l _

/-- C7: `resolve_conda_environment` returns `None` exactly when the external
conda solver reports the request unresolvable (raises one of the caught
not-found/unsatisfiable errors), and otherwise returns the sorted list of
`"name==version"` strings for exactly those solved package records whose
name is among the requested package names. -/
theorem resolveCondaEnvironment_spec :
    ∀ (solverResult : SolverOutcome) (packages : List Requirement),
      (resolveCondaEnvironment solverResult packages = none ↔
        solverResult = .unsolvable)
      ∧ (∀ records, solverResult = .solved records →
          ∃ l, resolveCondaEnvironment solverResult packages = some l
            ∧ l.Pairwise (fun a b : String => a ≤ b)
            ∧ l.Perm (records.filterMap (fun pkg =>
                if (packages.map (fun p => p.name)).contains pkg.name then
                  some (pkg.name ++ "==" ++ toString pkg.version)
                else none))) := by
  intro solverResult packages
  cases solverResult with
  | unsolvable =>
    refine ⟨by simp [resolveCondaEnvironment], ?_⟩
    intro records h
    cases h
  | solved records0 =>
    refine ⟨by simp [resolveCondaEnvironment], ?_⟩
    intro records h
    injection h with h
    subst h
    exact ⟨_, rfl, sortStrings_sorted _, sortStrings_perm _⟩

theorem resolveCondaEnvironment_spec_witness :
    ∃ l, resolveCondaEnvironment
        (.solved [⟨"pandas", 2⟩, ⟨"numpy", 1⟩, ⟨"scipy", 9⟩])
        [sampleReq "numpy", sampleReq "pandas"] = some l
      ∧ l.Pairwise (fun a b : String => a ≤ b)
      ∧ l.Perm ([⟨"pandas", 2⟩, ⟨"numpy", 1⟩, ⟨"scipy", 9⟩].filterMap
          (fun pkg : PackageRecord =>
            if (([sampleReq "numpy", sampleReq "pandas"]).map (fun p => p.name)).contains pkg.name then
              some (pkg.name ++ "==" ++ toString pkg.version)
            else none)) :=
  (resolveCondaEnvironment_spec (.solved [⟨"pandas", 2⟩, ⟨"numpy", 1⟩, ⟨"scipy", 9⟩])
    [sampleReq "numpy", sampleReq "pandas"]).2 _ rfl

/-! ### Cache lemmas -/

lemma cacheFind?_nil (k : String) : cacheFind? [] k = none := rfl

lemma cacheFind?_cons (a : String) (b : List Nat)
    (rest : List (String × List Nat)) (m : String) :
    cacheFind? ((a, b) :: rest) m = if a == m then some b else cacheFind? rest m := by
  by_cases h : (a == m) = true <;> simp [cacheFind?, List.find?_cons, h]

lemma cacheFind?_cacheAppend (c : List (String × List Nat)) (n : String)
    (v : Nat) (m : String) :
    cacheFind? (cacheAppend c n v) m =
      if m = n then some ((cacheFind? c n).getD [] ++ [v]) else cacheFind? c m := by
  induction c with
  | nil =>
    by_cases h : m = n
    · simp [cacheAppend, cacheFind?_cons, h, cacheFind?_nil]
    · have hb : (n == m) = false := beq_eq_false_iff_ne.2 (fun he => h he.symm)
      simp [cacheAppend, cacheFind?_cons, hb, h, cacheFind?_nil]
  | cons p rest ih =>
    obtain ⟨k0, v0⟩ := p
    by_cases hk : k0 = n
    · have hbeq : (k0 == n) = true := beq_iff_eq.2 hk
      by_cases hm : m = n
      · have hbm : (k0 == m) = true := beq_iff_eq.2 (hk.trans hm.symm)
        simp [cacheAppend, hbeq, cacheFind?_cons, hbm, hm, hk]
      · have hb : (k0 == m) = false :=
          beq_eq_false_iff_ne.2 (fun he => hm (he.symm.trans hk))
        simp [cacheAppend, hbeq, cacheFind?_cons, hb, hm]
    · have hbeq : (k0 == n) = false := beq_eq_false_iff_ne.2 hk
      by_cases hk0m : k0 = m
      · have hbm : (k0 == m) = true := beq_iff_eq.2 hk0m
        have hmn : ¬ m = n := fun he => hk (hk0m.trans he)
        simp [cacheAppend, hbeq, cacheFind?_cons, hbm, hmn]
      · have hbm : (k0 == m) = false := beq_eq_false_iff_ne.2 hk0m
        simp [cacheAppend, hbeq, cacheFind?_cons, hbm, ih]

lemma cacheFind?_foldl_append_ne {n m : String} (h : m ≠ n) (vs : List Nat) :
    ∀ c, cacheFind? (vs.foldl (fun c' v => cacheAppend c' n v) c) m = cacheFind? c m := by
  induction vs with
  | nil => intro c; rfl
  | cons v vs ih =>
    intro c
    rw [List.foldl_cons, ih, cacheFind?_cacheAppend, if_neg h]

lemma cacheFind?_foldl_append_self (n : String) (vs : List Nat) :
    ∀ c, cacheFind? (vs.foldl (fun c' v => cacheAppend c' n v) c) n =
      if vs.isEmpty then cacheFind? c n else some ((cacheFind? c n).getD [] ++ vs) := by
  induction vs with
  | nil => intro c; rfl
  | cons v vs ih =>
    intro c
    rw [List.foldl_cons, ih]
    cases vs with
    | nil =>
      simp [cacheFind?_cacheAppend]
    | cons v' vs' =>
      simp only [List.isEmpty_cons, Bool.false_eq_true, if_false]
      rw [cacheFind?_cacheAppend, if_pos rfl]
      simp

lemma cacheFind?_cacheAddRows_not_mem {m : String} {names : List String}
    (h : m ∉ names) (cache : List (String × List Nat)) (catalog : String → List Nat) :
    cacheFind? (cacheAddRows cache names catalog) m = cacheFind? cache m := by
  induction names generalizing cache with
  | nil => rfl
  | cons n ns ih =>
    have hm : m ≠ n := fun he => h (he ▸ List.mem_cons_self _ _)
    have hns : m ∉ ns := fun he => h (List.mem_cons_of_mem _ he)
    unfold cacheAddRows at ih ⊢
    rw [List.foldl_cons, ih hns, cacheFind?_foldl_append_ne hm]

lemma cacheFind?_cacheAddRows_of_none {names : List String}
    {cache : List (String × List Nat)} (hnodup : names.Nodup)
    (hnone : ∀ n ∈ names, cacheFind? cache n = none)
    (catalog : String → List Nat) (m : String) :
    cacheFind? (cacheAddRows cache names catalog) m =
      if m ∈ names then (if (catalog m).isEmpty then none else some (catalog m))
      else cacheFind? cache m := by
  induction names generalizing cache with
  | nil => simp [cacheAddRows]
  | cons n ns ih =>
    have hnn : n ∉ ns := (List.nodup_cons.1 hnodup).1
    have hnodup' : ns.Nodup := (List.nodup_cons.1 hnodup).2
    have hc1self : cacheFind? ((catalog n).foldl (fun c' v => cacheAppend c' n v) cache) n =
        if (catalog n).isEmpty then none else some (catalog n) := by
      rw [cacheFind?_foldl_append_self]
      by_cases he : (catalog n).isEmpty
      · simp [he, hnone n (List.mem_cons_self _ _)]
      · simp [he, hnone n (List.mem_cons_self _ _)]
    have hc1other : ∀ x, x ≠ n →
        cacheFind? ((catalog n).foldl (fun c' v => cacheAppend c' n v) cache) x =
          cacheFind? cache x := fun x hx => cacheFind?_foldl_append_ne hx _ cache
    have hnone' : ∀ x ∈ ns, cacheFind?
        ((catalog n).foldl (fun c' v => cacheAppend c' n v) cache) x = none := by
      intro x hx
      rw [hc1other x (fun he => hnn (he ▸ hx)), hnone x (List.mem_cons_of_mem _ hx)]
    unfold cacheAddRows at ih ⊢
    rw [List.foldl_cons, ih hnodup' hnone']
    by_cases hmns : m ∈ ns
    · simp [hmns, List.mem_cons_of_mem _ hmns]
    · by_cases hmn : m = n
      · subst hmn
        simp [hmns, hc1self]
      · simp [hmns, hmn, hc1other m hmn]

/-- C6: the module-level cache `_SNOWFLAKE_CONDA_PACKAGE_CACHE` (here: the
explicit cache state) is only modified by
`validate_requirements_in_snowflake_conda_channel`, and that operation only
adds version entries for package names it queried (names of input
requirements that were not cached): every previously cached entry is left
exactly as it was.  All other operations of the module are pure functions of
their arguments in this embedding — they do not take or return the cache. -/
theorem validateRequirements_cache_frame :
    ∀ (catalog : String → List Nat) (queryFails : Bool)
      (cache : List (String × List Nat)) (reqs : List Requirement),
      (∀ n vs, cacheFind? cache n = some vs →
        cacheFind? (validateRequirementsInSnowflakeCondaChannel
          catalog queryFails cache reqs).1 n = some vs)
      ∧ (∀ n, cacheFind? (validateRequirementsInSnowflakeCondaChannel
            catalog queryFails cache reqs).1 n ≠ cacheFind? cache n →
          cacheFind? cache n = none ∧ ∃ r ∈ reqs, r.name = n) := by
  intro catalog queryFails cache reqs
  by_cases hE : (reqs.filter fun req => (cacheFind? cache req.name).isNone).isEmpty = true
  · have h1 : (validateRequirementsInSnowflakeCondaChannel
        catalog queryFails cache reqs).1 = cache := by
      simp [validateRequirementsInSnowflakeCondaChannel, hE]
    rw [h1]
    exact ⟨fun n vs h => h, fun n hne => absurd rfl hne⟩
  · cases queryFails with
    | true =>
      have h1 : (validateRequirementsInSnowflakeCondaChannel
          catalog true cache reqs).1 = cache := by
        simp [validateRequirementsInSnowflakeCondaChannel, hE]
      rw [h1]
      exact ⟨fun n vs h => h, fun n hne => absurd rfl hne⟩
    | false =>
      have h1 : (validateRequirementsInSnowflakeCondaChannel
          catalog false cache reqs).1 =
          cacheAddRows cache
            (((reqs.filter fun req => (cacheFind? cache req.name).isNone).map
              (fun req => req.name)).dedup) catalog := by
        simp [validateRequirementsInSnowflakeCondaChannel, hE]
      rw [h1]
      have hmem_names : ∀ n,
          n ∈ ((reqs.filter fun req => (cacheFind? cache req.name).isNone).map
            (fun req => req.name)).dedup →
          cacheFind? cache n = none ∧ ∃ r ∈ reqs, r.name = n := by
        intro n hn
        rw [List.mem_dedup] at hn
        obtain ⟨r, hr, hrn⟩ := List.mem_map.1 hn
        obtain ⟨hrq, hpred⟩ := List.mem_filter.1 hr
        rw [← hrn]
        exact ⟨Option.isNone_iff_eq_none.1 hpred, r, hrq, rfl⟩
      constructor
      · intro n vs h
        have hnn : n ∉ ((reqs.filter fun req => (cacheFind? cache req.name).isNone).map
            (fun req => req.name)).dedup := by
          intro hn
          rw [(hmem_names n hn).1] at h
          cases h
        rw [cacheFind?_cacheAddRows_not_mem hnn, h]
      · intro n hne
        by_cases hn : n ∈ ((reqs.filter fun req => (cacheFind? cache req.name).isNone).map
            (fun req => req.name)).dedup
        · exact hmem_names n hn
        · exact absurd (cacheFind?_cacheAddRows_not_mem hn cache catalog) hne

theorem validateRequirements_cache_frame_witness :
    cacheFind? (validateRequirementsInSnowflakeCondaChannel
      (fun _ => [2]) false [("numpy", [1])] [sampleReq "pandas"]).1 "numpy" = some [1] :=
  (validateRequirements_cache_frame (fun _ => [2]) false [("numpy", [1])]
    [sampleReq "pandas"]).1 "numpy" [1] (by decide)

/-! ### Pinning lemmas and the catalog-reconciliation theorem -/

lemma pinRequirement_eq_none_iff (cache : List (String × List Nat)) (r : Requirement) :
    pinRequirement cache r = none ↔
      ((cacheFind? cache r.name).getD []).filter r.specifier = [] := by
  cases h : (((cacheFind? cache r.name).getD []).filter r.specifier).max? with
  | none =>
    simp only [pinRequirement, h]
    exact iff_of_true trivial (List.max?_eq_none_iff.1 h)
  | some m =>
    simp only [pinRequirement, h]
    constructor
    · intro hfalse
      cases hfalse
    · intro hf
      rw [hf] at h
      cases h

lemma pinRequirement_eq_some {cache : List (String × List Nat)} {r : Requirement}
    {s : String} (h : pinRequirement cache r = some s) :
    ∃ m, (((cacheFind? cache r.name).getD []).filter r.specifier).max? = some m
      ∧ s = r.name ++ "==" ++ toString m := by
  cases hm : (((cacheFind? cache r.name).getD []).filter r.specifier).max? with
  | none =>
    simp only [pinRequirement, hm] at h
    cases h
  | some m =>
    simp only [pinRequirement, hm, Option.some.injEq] at h
    exact ⟨m, rfl, h.symm⟩

lemma pinAll_eq_none_iff (cache : List (String × List Nat)) :
    ∀ reqs, pinAll cache reqs = none ↔ ∃ r ∈ reqs, pinRequirement cache r = none := by
  intro reqs
  induction reqs with
  | nil => simp [pinAll]
  | cons r rs ih =>
    cases h : pinRequirement cache r with
    | none =>
      simp only [pinAll, h]
      exact iff_of_true trivial ⟨r, List.mem_cons_self _ _, h⟩
    | some s =>
      cases h2 : pinAll cache rs with
      | none =>
        simp only [pinAll, h, h2]
        obtain ⟨r', hr', hpin⟩ := ih.1 h2
        exact iff_of_true trivial ⟨r', List.mem_cons_of_mem _ hr', hpin⟩
      | some l =>
        simp only [pinAll, h, h2]
        constructor
        · intro hfalse
          cases hfalse
        · rintro ⟨r', hr', hpin⟩
          rcases List.mem_cons.1 hr' with rfl | hmem
          · rw [h] at hpin
            cases hpin
          · rw [ih.2 ⟨r', hmem, hpin⟩] at h2
            cases h2

lemma pinAll_eq_some_iff (cache : List (String × List Nat)) :
    ∀ reqs l, pinAll cache reqs = some l ↔
      List.Forall₂ (fun r s => pinRequirement cache r = some s) reqs l := by
  intro reqs
  induction reqs with
  | nil =>
    intro l
    constructor
    · intro h
      simp only [pinAll, Option.some.injEq] at h
      rw [← h]
      exact List.Forall₂.nil
    · intro h
      cases h
      rfl
  | cons r rs ih =>
    intro l
    constructor
    · intro h
      cases hp : pinRequirement cache r with
      | none =>
        simp only [pinAll, hp] at h
        cases h
      | some s =>
        cases h2 : pinAll cache rs with
        | none =>
          simp only [pinAll, hp, h2] at h
          cases h
        | some l0 =>
          simp only [pinAll, hp, h2, Option.some.injEq] at h
          rw [← h]
          exact List.Forall₂.cons hp ((ih l0).1 h2)
    · intro h
      cases h with
      | cons hr hrest =>
        simp only [pinAll, hr, (ih _).2 hrest]

lemma forall₂_imp_mem {α β : Type} {R S : α → β → Prop} :
    ∀ {l1 : List α} {l2 : List β}, List.Forall₂ R l1 l2 →
      (∀ a b, a ∈ l1 → R a b → S a b) → List.Forall₂ S l1 l2 := by
  intro l1 l2 h
  induction h with
  | nil => intro _; exact List.Forall₂.nil
  | cons hr hrest ih =>
    intro himp
    exact List.Forall₂.cons (himp _ _ (List.mem_cons_self _ _) hr)
      (ih (fun a b ha hr2 => himp a b (List.mem_cons_of_mem _ ha) hr2))

/-- C5: starting from an empty cache,
`validate_requirements_in_snowflake_conda_channel` returns `None` exactly
when the query fails (a query is issued whenever there are requirements) or
some requirement has no catalog version satisfying its specifier; otherwise
it returns, for each input requirement, the string `"name==v"` with `v` the
maximum catalog version of the package satisfying the requirement's version
specifier, as a sorted list. -/
theorem validateRequirements_catalog_spec :
    ∀ (catalog : String → List Nat) (queryFails : Bool) (reqs : List Requirement),
      ((validateRequirementsInSnowflakeCondaChannel catalog queryFails [] reqs).2 = none ↔
        (reqs ≠ [] ∧ queryFails = true) ∨
          ∃ r ∈ reqs, (catalog r.name).filter r.specifier = [])
      ∧ (∀ l, (validateRequirementsInSnowflakeCondaChannel catalog queryFails [] reqs).2 = some l →
          ∃ pins, List.Forall₂ (fun (r : Requirement) (s : String) => ∃ m,
              m ∈ catalog r.name ∧ r.specifier m = true
              ∧ (∀ v ∈ catalog r.name, r.specifier v = true → v ≤ m)
              ∧ s = r.name ++ "==" ++ toString m) reqs pins
            ∧ l.Pairwise (fun a b : String => a ≤ b) ∧ l.Perm pins) := by
  intro catalog queryFails reqs
  have hfilter : reqs.filter (fun req => (cacheFind? [] req.name).isNone) = reqs :=
    List.filter_eq_self.2 (fun r _ => rfl)
  by_cases hreqs : reqs = []
  · subst hreqs
    have hres : (validateRequirementsInSnowflakeCondaChannel catalog queryFails [] []).2 =
        some [] := by
      simp [validateRequirementsInSnowflakeCondaChannel, pinAll, sortStrings]
    constructor
    · rw [hres]
      simp
    · intro l h
      rw [hres] at h
      injection h with h
      subst h
      exact ⟨[], List.Forall₂.nil, List.Pairwise.nil, List.Perm.refl _⟩
  · have hne : reqs.isEmpty = false := by
      cases he : reqs.isEmpty with
      | true => exact absurd (List.isEmpty_iff.1 he) hreqs
      | false => rfl
    cases queryFails with
    | true =>
      have hres : (validateRequirementsInSnowflakeCondaChannel catalog true [] reqs).2 =
          none := by
        simp [validateRequirementsInSnowflakeCondaChannel, hfilter, hne]
      constructor
      · rw [hres]
        exact iff_of_true rfl (Or.inl ⟨hreqs, rfl⟩)
      · intro l h
        rw [hres] at h
        cases h
    | false =>
      have hres : (validateRequirementsInSnowflakeCondaChannel catalog false [] reqs).2 =
          (pinAll (cacheAddRows []
            ((reqs.map (fun req => req.name)).dedup) catalog) reqs).map sortStrings := by
        simp [validateRequirementsInSnowflakeCondaChannel, hfilter, hne]
      have hAvail : ∀ r ∈ reqs,
          (cacheFind? (cacheAddRows [] ((reqs.map (fun req => req.name)).dedup) catalog)
            r.name).getD [] = catalog r.name := by
        intro r hr
        have hmem : r.name ∈ (reqs.map (fun req => req.name)).dedup :=
          List.mem_dedup.2 (List.mem_map.2 ⟨r, hr, rfl⟩)
        rw [cacheFind?_cacheAddRows_of_none (List.nodup_dedup _)
          (fun n _ => cacheFind?_nil n) catalog r.name, if_pos hmem]
        by_cases he : (catalog r.name).isEmpty = true
        · rw [if_pos he]
          simp [List.isEmpty_iff.1 he]
        · rw [if_neg he]
          rfl
      constructor
      · rw [hres, Option.map_eq_none']
        constructor
        · intro h
          right
          obtain ⟨r, hr, hpin⟩ := (pinAll_eq_none_iff _ reqs).1 h
          have hfe := (pinRequirement_eq_none_iff _ r).1 hpin
          rw [hAvail r hr] at hfe
          exact ⟨r, hr, hfe⟩
        · intro h
          rcases h with ⟨-, hq⟩ | ⟨r, hr, hcat⟩
          · cases hq
          · apply (pinAll_eq_none_iff _ reqs).2
            refine ⟨r, hr, (pinRequirement_eq_none_iff _ r).2 ?_⟩
            rw [hAvail r hr]
            exact hcat
      · intro l h
        rw [hres] at h
        obtain ⟨pins0, hpins0, hl⟩ := Option.map_eq_some'.1 h
        have hf2 := (pinAll_eq_some_iff _ reqs pins0).1 hpins0
        refine ⟨pins0, ?_, ?_, ?_⟩
        · refine forall₂_imp_mem hf2 ?_
          intro r s hr hpin
          obtain ⟨m, hmax, hs⟩ := pinRequirement_eq_some hpin
          rw [hAvail r hr] at hmax
          rw [List.max?_eq_some_iff (fun a => le_refl a) (fun a b => max_choice a b)
            (fun a b c => max_le_iff)] at hmax
          obtain ⟨hmem, hall⟩ := hmax
          obtain ⟨hmc, hms⟩ := List.mem_filter.1 hmem
          refine ⟨m, hmc, hms, ?_, hs⟩
          intro v hv hvs
          exact hall v (List.mem_filter.2 ⟨hv, hvs⟩)
        · rw [← hl]
          exact sortStrings_sorted _
        · rw [← hl]
          exact sortStrings_perm _

/-- A sample requirement whose specifier accepts versions at most 2, and a
sample catalog carrying versions 3, 1, 2 of `"numpy"`. -/
def sampleReqLe2 : Requirement :=
  { name := "numpy", extras := false, url := false, marker := false,
    specifier := fun v => decide (v ≤ 2) }

def sampleCatalog : String → List Nat :=
  fun n => if n == "numpy" then [3, 1, 2] else []

theorem validateRequirements_catalog_spec_witness :
    ∃ l pins, (validateRequirementsInSnowflakeCondaChannel
        sampleCatalog false [] [sampleReqLe2]).2 = some l
      ∧ List.Forall₂ (fun (r : Requirement) (s : String) => ∃ m,
          m ∈ sampleCatalog r.name ∧ r.specifier m = true
          ∧ (∀ v ∈ sampleCatalog r.name, r.specifier v = true → v ≤ m)
          ∧ s = r.name ++ "==" ++ toString m) [sampleReqLe2] pins
      ∧ l.Pairwise (fun a b : String => a ≤ b) ∧ l.Perm pins := by
  have hne : (validateRequirementsInSnowflakeCondaChannel
      sampleCatalog false [] [sampleReqLe2]).2 ≠ none := by
    intro hnone
    have hcases :=
      (validateRequirements_catalog_spec sampleCatalog false [sampleReqLe2]).1.1 hnone
    rcases hcases with ⟨-, hq⟩ | ⟨r, hr, hcat⟩
    · cases hq
    · simp only [List.mem_singleton] at hr
      subst hr
      revert hcat
      decide
  obtain ⟨l, hl⟩ := Option.ne_none_iff_exists'.1 hne
  obtain ⟨pins, hf, hp, hperm⟩ :=
    (validateRequirements_catalog_spec sampleCatalog false [sampleReqLe2]).2 l hl
  exact ⟨l, pins, hl, hf, hp, hperm⟩

end EnvUtils
